import Mathlib

/-!
32Blox, death.cpp: the initials-entry screen.

A shallow embedding of the stateful logic of `src/death.cpp` (the module
variables, the two timer callbacks, `death_check_score` and `death_update`)
together with theorems about it.  `death_render` only draws and is not
embedded.

Conventions of the embedding.

* The module variables and the function-static `ls_loopcount` are the fields
  of `State`; every function takes the state and returns the new one.
* `char` values are their character codes (`' '` is 32, `'A'` is 65, `'Z'` is
  90).  Every increment and decrement in the source is guarded by a bound
  check, so no machine integer of the editor wraps; the 16-bit animation
  counter is reduced modulo `2^16` explicitly.
* `m_player[m_cursor]` with `m_cursor > 2` is an out-of-bounds access of a
  `char[3]`; the embedding makes it a failure (`none`).
* The floating-point joystick comparisons are not embedded: their four
  boolean outcomes are part of the per-frame `Input`.
-/

namespace Death

/-! ## Collaborator types (declared in headers that are not part of `src/`) -/

/-- Modelled from the spec: `blit::Pen` is declared in the absent `32blit.hpp`.
A colour of four 8-bit components, the three channels "combined with full
opacity" in the alpha component. -/
structure Pen where
  r : Nat
  g : Nat
  b : Nat
  a : Nat
deriving DecidableEq, Repr

/-- Modelled from the spec: the constructor `blit::Pen( r, g, b, a )` of the
absent `32blit.hpp`; each argument is stored in an 8-bit colour component. -/
def Pen.rgba (r g b a : Nat) : Pen :=
  { r := r % 256, g := g % 256, b := b % 256, a := a % 256 }

/-- Modelled from the spec: `blit::Timer` is declared in the absent
`32blit.hpp`.  A countdown of a fixed `duration` that is either running or
not; `started` is the time of the last start (zero when never started) and
`loops` the repeat count given to `init`. -/
structure Timer where
  duration : Nat
  loops : Int
  started : Nat
  running : Bool
deriving DecidableEq, Repr

/-- Modelled from the spec: `Timer::init` records the period and the repeat
count and arms nothing. -/
def Timer.init (t : Timer) (duration : Nat) (loops : Int) : Timer :=
  { t with duration := duration, loops := loops }

/-- Modelled from the spec: `Timer::start` starts (or restarts) the countdown
at the current time. -/
def Timer.start (t : Timer) (now : Nat) : Timer :=
  { t with started := now, running := true }

/-- Modelled from the spec: `Timer::stop` stops the countdown. -/
def Timer.stop (t : Timer) : Timer :=
  { t with running := false }

/-- Modelled from the spec: `gamestate_t` is declared in the absent
`32blox.hpp`; only the two enumerators that `death_update` returns are
listed (`STATE_DEATH` is the spec's EDITING, `STATE_HISCORE` its COMMITTED). -/
inductive gamestate_t where
  | STATE_DEATH
  | STATE_HISCORE
deriving DecidableEq, Repr

/-! ## Module variables -/

/-- The array `static char m_player[3]`, as character codes. -/
structure Player where
  c0 : Nat
  c1 : Nat
  c2 : Nat
deriving DecidableEq, Repr

/-- Reading `m_player[i]`; an index outside the array has no value. -/
def Player.get? (p : Player) : Nat → Option Nat
  | 0 => some p.c0
  | 1 => some p.c1
  | 2 => some p.c2
  | _ => none

/-- Writing `m_player[i] = v` for an index inside the array. -/
def Player.set (p : Player) (i : Nat) (v : Nat) : Player :=
  match i with
  | 0 => { p with c0 := v }
  | 1 => { p with c1 := v }
  | 2 => { p with c2 := v }
  | _ => p

/-- The module variables of `death.cpp`, plus the function-static
`ls_loopcount` of `_death_flicker_timer_update`.  `m_waiting` is a `uint32_t`
that only ever holds `false` or `true` and is only tested for zero. -/
structure State where
  m_text_colour : Pen
  m_gradient_row : Nat
  m_score : Nat
  m_player : Player
  m_cursor : Nat
  m_waiting : Bool
  m_wait_timer : Timer
  m_flicker_timer : Timer
  ls_loopcount : Nat
deriving DecidableEq, Repr

/-- What `death_update` reads from the hardware in one frame: the clock, the
buttons (`blit::pressed`), and the outcomes of the four joystick
comparisons against the 0.1 dead zone. -/
structure Input where
  now : Nat
  dpad_left : Bool
  dpad_right : Bool
  dpad_up : Bool
  dpad_down : Bool
  button_b : Bool
  joy_x_neg : Bool
  joy_x_pos : Bool
  joy_y_neg : Bool
  joy_y_pos : Bool
deriving DecidableEq, Repr

/-- Condition of the first `if` of `death_update`:
`pressed( DPAD_LEFT ) || joystick.x < -0.1f`. -/
def Input.left (i : Input) : Bool := i.dpad_left || i.joy_x_neg

/-- Condition `pressed( DPAD_RIGHT ) || joystick.x > 0.1f`. -/
def Input.right (i : Input) : Bool := i.dpad_right || i.joy_x_pos

/-- Condition `pressed( DPAD_UP ) || joystick.y < -0.1f`. -/
def Input.up (i : Input) : Bool := i.dpad_up || i.joy_y_neg

/-- Condition `pressed( DPAD_DOWN ) || joystick.y > 0.1f`. -/
def Input.down (i : Input) : Bool := i.dpad_down || i.joy_y_pos

/-! ## Timer callbacks -/

/-- The callback `_death_wait_timer_update`: clear the waiting flag and stop
the timer it is called with (the wait timer). -/
def _death_wait_timer_update (s : State) : State :=
  { s with m_waiting := false, m_wait_timer := s.m_wait_timer.stop }

/-- The statement `if ( ( ls_loopcount += 25 ) > 1200 ) ls_loopcount = 0;`
on a `uint16_t` counter. -/
def flicker_phase (ls_loopcount : Nat) : Nat :=
  if (ls_loopcount + 25) % 65536 > 1200 then 0 else (ls_loopcount + 25) % 65536

/-- The callback `_death_flicker_timer_update`. -/
def _death_flicker_timer_update (s : State) : State :=
  let lc := flicker_phase s.ls_loopcount
  { s with
    ls_loopcount := lc
    m_text_colour := Pen.rgba (lc % 255) ((lc % 512) / 2) (255 - (lc % 255)) 255
    m_gradient_row := ((lc / 10) % 120) % 65536 }

/-! ## `death_check_score` -/

/-- The function `death_check_score`.  `lowest` is the value returned by the
external `hiscore_get_score( MAX_SCORES-1 )`. -/
def death_check_score (lowest : Nat) (p_score : Nat) (s : State) : Bool × State :=
  if lowest < p_score then
    (true,
      { s with
        m_wait_timer := s.m_wait_timer.init 250 0
        m_score := p_score
        m_player := { c0 := 65, c1 := 65, c2 := 65 }
        m_cursor := 0 })
  else
    (false, s)

/-! ## `death_update` -/

/-- The module state together with the local `l_moving` of `death_update`. -/
structure Frame where
  g : State
  l_moving : Bool
deriving DecidableEq, Repr

/-- The block "If it's not running, we need to set up the flicker timer". -/
def flicker_setup (i : Input) (s : State) : State :=
  if s.m_flicker_timer.started = 0 then
    { s with m_flicker_timer := (s.m_flicker_timer.init 20 (-1)).start i.now }
  else s

/-- The block "Move the cursor left". -/
def move_left (i : Input) (f : Frame) : Frame :=
  if i.left then
    if !f.g.m_waiting then
      if 0 < f.g.m_cursor then
        { g := { f.g with
                 m_waiting := true
                 m_wait_timer := f.g.m_wait_timer.start i.now
                 m_cursor := f.g.m_cursor - 1 },
          l_moving := true }
      else { f with l_moving := true }
    else { f with l_moving := true }
  else f

/-- The block "Or right, come to that!". -/
def move_right (i : Input) (f : Frame) : Frame :=
  if i.right then
    if !f.g.m_waiting then
      if f.g.m_cursor < 2 then
        { g := { f.g with
                 m_waiting := true
                 m_wait_timer := f.g.m_wait_timer.start i.now
                 m_cursor := f.g.m_cursor + 1 },
          l_moving := true }
      else { f with l_moving := true }
    else { f with l_moving := true }
  else f

/-- The block "Up means moving up through the alphabet". -/
def move_up (i : Input) (f : Frame) : Option Frame :=
  if i.up then
    if !f.g.m_waiting then
      match f.g.m_player.get? f.g.m_cursor with
      | none => none
      | some ch =>
        if ch < 90 then
          some { g := { f.g with
                        m_waiting := true
                        m_wait_timer := f.g.m_wait_timer.start i.now
                        m_player := f.g.m_player.set f.g.m_cursor (ch + 1) },
                 l_moving := true }
        else some { f with l_moving := true }
    else some { f with l_moving := true }
  else some f

/-- The block "And down means, well, moving down through the alphabet". -/
def move_down (i : Input) (f : Frame) : Option Frame :=
  if i.down then
    if !f.g.m_waiting then
      match f.g.m_player.get? f.g.m_cursor with
      | none => none
      | some ch =>
        if 32 < ch then
          some { g := { f.g with
                        m_waiting := true
                        m_wait_timer := f.g.m_wait_timer.start i.now
                        m_player := f.g.m_player.set f.g.m_cursor (ch - 1) },
                 l_moving := true }
        else some { f with l_moving := true }
    else some { f with l_moving := true }
  else some f

/-- The block "If there's no user movement, reset the input timer". -/
def reset_waiting (f : Frame) : State :=
  if !f.l_moving then { f.g with m_waiting := false } else f.g

/-- What one call of `death_update` produces: the module state afterwards,
the returned game state, and the calls made to the external
`hiscore_save_score` (score and the three letters passed), in order. -/
structure UpdateResult where
  state : State
  ret : gamestate_t
  saved : List (Nat × Player)
deriving DecidableEq, Repr

/-- The block "Check to see if the player has pressed the save button" and
the default return. -/
def check_save (i : Input) (s : State) : UpdateResult :=
  if i.button_b then
    { state := { s with m_flicker_timer := s.m_flicker_timer.stop },
      ret := gamestate_t.STATE_HISCORE,
      saved := [(s.m_score, s.m_player)] }
  else
    { state := s, ret := gamestate_t.STATE_DEATH, saved := [] }

/-- The function `death_update`: the blocks above in source order.  The
result is `none` exactly when the call reads `m_player` out of bounds. -/
def death_update (i : Input) (s : State) : Option UpdateResult :=
  let f0 : Frame := { g := flicker_setup i s, l_moving := false }
  let f1 := move_left i f0
  let f2 := move_right i f1
  match move_up i f2 with
  | none => none
  | some f3 =>
    match move_down i f3 with
    | none => none
    | some f4 => some (check_save i (reset_waiting f4))

/-! ## Runs of the screen -/

/-- What can happen to the module state while the screen is shown: a frame
update with that frame's input, an expiry of the wait timer, or a tick of
the flicker timer. -/
inductive Event where
  | update (i : Input)
  | wait_expiry
  | flicker_tick
deriving DecidableEq, Repr

/-- One event applied to the module state. -/
def Event.apply (e : Event) (s : State) : Option State :=
  match e with
  | Event.update i => (death_update i s).map UpdateResult.state
  | Event.wait_expiry => some (_death_wait_timer_update s)
  | Event.flicker_tick => some (_death_flicker_timer_update s)

/-- A finite sequence of events applied in order. -/
def run : List Event → State → Option State
  | [], s => some s
  | e :: es, s =>
    match e.apply s with
    | none => none
    | some s1 => run es s1

/-- The flicker tick applied `n` times to the animation counter. -/
def ticks : Nat → Nat → Nat
  | 0, lc => lc
  | n + 1, lc => ticks n (flicker_phase lc)

/-! ## Sample values used by the closed theorems -/

/-- An idle timer. -/
def timer0 : Timer := { duration := 0, loops := 0, started := 0, running := false }

/-- A session as `death_check_score` leaves it on a fresh module state. -/
def sample (score : Nat) (p : Player) (cursor : Nat) (waiting : Bool) : State :=
  { m_text_colour := { r := 0, g := 0, b := 0, a := 0 },
    m_gradient_row := 0,
    m_score := score,
    m_player := p,
    m_cursor := cursor,
    m_waiting := waiting,
    m_wait_timer := { timer0 with duration := 250 },
    m_flicker_timer := timer0,
    ls_loopcount := 0 }

/-- The letters `"BXQ"`. -/
def bxq : Player := { c0 := 66, c1 := 88, c2 := 81 }

/-- The letters `"AAA"`. -/
def aaa : Player := { c0 := 65, c1 := 65, c2 := 65 }

/-- A frame with nothing pressed and the stick centred. -/
def idle : Input :=
  { now := 0, dpad_left := false, dpad_right := false, dpad_up := false,
    dpad_down := false, button_b := false, joy_x_neg := false, joy_x_pos := false,
    joy_y_neg := false, joy_y_pos := false }

/-- The frame of the diagonal example: left and up both pressed. -/
def diag : Input := { idle with dpad_left := true, dpad_up := true }

/-- A frame with only the save button pressed. -/
def confirm_only : Input := { idle with button_b := true }

/-- A frame with only right pressed. -/
def right_only : Input := { idle with dpad_right := true }

/-- A frame with only up pressed. -/
def up_only : Input := { idle with dpad_up := true }

/-- A frame with only down asserted, by the stick. -/
def down_only : Input := { idle with joy_y_pos := true }

/-- A module state left behind by an earlier session: cursor and letters are
whatever they were, the gate is still blocking. -/
def stale : State := { sample 7 bxq 9 true with ls_loopcount := 300 }

/-- A short play: right, right (held), expiry, right, up, release, down,
left and up together, a flicker tick, confirm. -/
def play : List Event :=
  [Event.update right_only, Event.update right_only, Event.wait_expiry,
   Event.update right_only, Event.update up_only, Event.update idle,
   Event.update down_only, Event.update diag, Event.flicker_tick,
   Event.update confirm_only]

/-! ## Vocabulary of the properties -/

/-- The four directions `death_update` looks at, in source order. -/
inductive Dir where
  | left
  | right
  | up
  | down
deriving DecidableEq, Repr

/-- Whether the frame asserts the direction. -/
def Input.asserts (i : Input) : Dir → Bool
  | Dir.left => i.left
  | Dir.right => i.right
  | Dir.up => i.up
  | Dir.down => i.down

/-- The frame asserts direction `d` and no other direction. -/
def Input.only (i : Input) (d : Dir) : Prop :=
  i.left = decide (d = Dir.left) ∧ i.right = decide (d = Dir.right) ∧
    i.up = decide (d = Dir.up) ∧ i.down = decide (d = Dir.down)

instance (i : Input) (d : Dir) : Decidable (i.only d) :=
  inferInstanceAs (Decidable (_ ∧ _ ∧ _ ∧ _))

/-- The frame asserts no direction at all. -/
def Input.released (i : Input) : Prop :=
  i.left = false ∧ i.right = false ∧ i.up = false ∧ i.down = false

instance (i : Input) : Decidable i.released :=
  inferInstanceAs (Decidable (_ ∧ _ ∧ _ ∧ _))

/-- A move in direction `d` would leave the bounds: the cursor is at the end
it is pushed against, or the letter under the cursor is the last one. -/
def Dir.atBound (d : Dir) (s : State) : Prop :=
  match d with
  | Dir.left => s.m_cursor = 0
  | Dir.right => s.m_cursor = 2
  | Dir.up => s.m_player.get? s.m_cursor = some 90
  | Dir.down => s.m_player.get? s.m_cursor = some 32

instance (d : Dir) (s : State) : Decidable (d.atBound s) := by
  cases d <;> exact inferInstanceAs (Decidable (_ = _))

/-- A move in direction `d` stays in bounds, that is, the bound check of the
block for `d` passes: the cursor has room on that side, or the letter under
the cursor has a neighbour on that side. -/
def Dir.inBounds (d : Dir) (s : State) : Prop :=
  match d with
  | Dir.left => 0 < s.m_cursor
  | Dir.right => s.m_cursor < 2
  | Dir.up => ∃ ch, s.m_player.get? s.m_cursor = some ch ∧ ch < 90
  | Dir.down => ∃ ch, s.m_player.get? s.m_cursor = some ch ∧ 32 < ch

/-- State `s1` is state `s` after exactly one step in direction `d`: the
cursor one to the left or right with the letters kept, or the letter under
the cursor one up or down with the cursor and the other letters kept. -/
def Dir.moved (d : Dir) (s s1 : State) : Prop :=
  match d with
  | Dir.left => s1.m_cursor + 1 = s.m_cursor ∧ s1.m_player = s.m_player
  | Dir.right => s1.m_cursor = s.m_cursor + 1 ∧ s1.m_player = s.m_player
  | Dir.up => s1.m_cursor = s.m_cursor ∧
      ∃ ch, s.m_player.get? s.m_cursor = some ch ∧
        s1.m_player = s.m_player.set s.m_cursor (ch + 1)
  | Dir.down => s1.m_cursor = s.m_cursor ∧
      ∃ ch, s.m_player.get? s.m_cursor = some ch ∧ 0 < ch ∧
        s1.m_player = s.m_player.set s.m_cursor (ch - 1)

/-- Every letter has a character code in `[' ', 'Z']`. -/
def Player.inRange (p : Player) : Prop :=
  (32 ≤ p.c0 ∧ p.c0 ≤ 90) ∧ (32 ≤ p.c1 ∧ p.c1 ≤ 90) ∧ (32 ≤ p.c2 ∧ p.c2 ≤ 90)

/-- The data-model invariant of a session: cursor in `[0,2]` and every letter
in `[' ', 'Z']`. -/
def State.wf (s : State) : Prop :=
  s.m_cursor ≤ 2 ∧ s.m_player.inRange

/-- A frame with only left pressed. -/
def left_only : Input := { idle with dpad_left := true }

/-- The gate/timer predicate: the waiting flag is set only while the wait
timer is running. -/
def State.gateInv (s : State) : Prop :=
  s.m_waiting = true → s.m_wait_timer.running = true

instance (s : State) : Decidable s.gateInv :=
  inferInstanceAs (Decidable (_ → _))

/-- A session in the middle of a cool-down: the waiting flag is set and the
wait timer is running. -/
def cooling : State :=
  { sample 1500 aaa 1 true with
    m_wait_timer := { duration := 250, loops := 0, started := 40, running := true } }

/-- The bound check of the block for `d`, as a boolean. -/
def Dir.canMove (d : Dir) (s : State) : Bool :=
  match d with
  | Dir.left => decide (0 < s.m_cursor)
  | Dir.right => decide (s.m_cursor < 2)
  | Dir.up =>
    match s.m_player.get? s.m_cursor with
    | some ch => decide (ch < 90)
    | none => false
  | Dir.down =>
    match s.m_player.get? s.m_cursor with
    | some ch => decide (32 < ch)
    | none => false

/-- The move a frame is said to make: none while the gate is blocking,
otherwise the first of left, right, up, down that is asserted and within
bounds, if there is one. -/
def chosen (i : Input) (s : State) : Option Dir :=
  if s.m_waiting then none
  else [Dir.left, Dir.right, Dir.up, Dir.down].find? (fun d => i.asserts d && d.canMove s)

/-- A frame with all four directions asserted at once (pad left and up,
stick right and down). -/
def all_dirs : Input :=
  { idle with dpad_left := true, dpad_up := true, joy_x_pos := true, joy_y_pos := true }

/-- The colour `_death_flicker_timer_update` builds from a counter value
(source lines 68 to 73). -/
def flicker_colour (lc : Nat) : Pen :=
  Pen.rgba (lc % 255) ((lc % 512) / 2) (255 - (lc % 255)) 255

/-- The gradient row `_death_flicker_timer_update` stores for a counter value
(source line 74), in the 16-bit `m_gradient_row`. -/
def flicker_row (lc : Nat) : Nat :=
  ((lc / 10) % 120) % 65536

/-! ## Key sequences that enter a given name -/

/-- The frame that asserts only direction `d`. -/
def Dir.frame : Dir → Input
  | Dir.left => left_only
  | Dir.right => right_only
  | Dir.up => up_only
  | Dir.down => down_only

/-- One tap of `d`: a frame with everything released, then a frame with only
`d` asserted. -/
def press (d : Dir) : List Input := [idle, d.frame]

/-- The tap of `d` repeated `n` times. -/
def presses (d : Dir) : Nat → List Input
  | 0 => []
  | n + 1 => press d ++ presses d n

/-- The taps that turn an `'A'` under the cursor into the letter `v`. -/
def spell (v : Nat) : List Input :=
  if 65 ≤ v then presses Dir.up (v - 65) else presses Dir.down (65 - v)

/-- The frames that enter the letters of `target` from a fresh session and
then park the cursor at `c`. -/
def entry (target : Player) (c : Nat) : List Input :=
  spell target.c0 ++ (press Dir.right ++ (spell target.c1 ++
    (press Dir.right ++ (spell target.c2 ++ presses Dir.left (2 - c)))))

/-- The frame updates for a list of inputs, one `death_update` call each. -/
def frames (ins : List Input) : List Event := ins.map Event.update

/-- The state has cursor `c` and letters `p`. -/
def State.shows (s : State) (c : Nat) (p : Player) : Prop :=
  s.m_cursor = c ∧ s.m_player = p

instance (p : Player) : Decidable p.inRange :=
  inferInstanceAs (Decidable (_ ∧ _ ∧ _))

/-! ## Runs of the flicker timer -/

/-- The flicker timer firing `n` times in a row: `n` calls of
`_death_flicker_timer_update`. -/
def flicker_ticks (n : Nat) : List Event := List.replicate n Event.flicker_tick

/-- The module state with the animation counter at its start value: the
function-static `ls_loopcount` is initialised to 0. -/
def State.fresh (s : State) : State := { s with ls_loopcount := 0 }

/-- The animation counter after the callback `_death_flicker_timer_update`
has run `n` times from a fresh counter. -/
def phase_after (n : Nat) (s : State) : Option Nat :=
  (run (flicker_ticks n) s.fresh).map State.ls_loopcount

/-! ## Theorems -/

/-! ### Projections of the blocks that do not touch the editor fields -/

@[simp] theorem flicker_setup_cursor (i : Input) (s : State) :
    (flicker_setup i s).m_cursor = s.m_cursor := by
  unfold flicker_setup; split_ifs <;> rfl

@[simp] theorem flicker_setup_player (i : Input) (s : State) :
    (flicker_setup i s).m_player = s.m_player := by
  unfold flicker_setup; split_ifs <;> rfl

@[simp] theorem flicker_setup_waiting (i : Input) (s : State) :
    (flicker_setup i s).m_waiting = s.m_waiting := by
  unfold flicker_setup; split_ifs <;> rfl

@[simp] theorem flicker_setup_score (i : Input) (s : State) :
    (flicker_setup i s).m_score = s.m_score := by
  unfold flicker_setup; split_ifs <;> rfl

@[simp] theorem check_save_cursor (i : Input) (s : State) :
    (check_save i s).state.m_cursor = s.m_cursor := by
  unfold check_save; split_ifs <;> rfl

@[simp] theorem check_save_player (i : Input) (s : State) :
    (check_save i s).state.m_player = s.m_player := by
  unfold check_save; split_ifs <;> rfl

@[simp] theorem check_save_waiting (i : Input) (s : State) :
    (check_save i s).state.m_waiting = s.m_waiting := by
  unfold check_save; split_ifs <;> rfl

@[simp] theorem check_save_score (i : Input) (s : State) :
    (check_save i s).state.m_score = s.m_score := by
  unfold check_save; split_ifs <;> rfl

/-! ### The call is defined on a cursor inside the array -/

theorem move_left_cursor_le (i : Input) (f : Frame) (h : f.g.m_cursor ≤ 2) :
    (move_left i f).g.m_cursor ≤ 2 := by
  unfold move_left; split_ifs <;> (try simp only) <;> omega

theorem move_right_cursor_le (i : Input) (f : Frame) (h : f.g.m_cursor ≤ 2) :
    (move_right i f).g.m_cursor ≤ 2 := by
  unfold move_right; split_ifs <;> (try simp only) <;> omega

theorem player_get_some (p : Player) (c : Nat) (h : c ≤ 2) : ∃ ch, p.get? c = some ch := by
  interval_cases c <;> simp [Player.get?]

theorem move_up_some (i : Input) (f : Frame) (h : f.g.m_cursor ≤ 2) :
    ∃ f1, move_up i f = some f1 ∧ f1.g.m_cursor = f.g.m_cursor := by
  obtain ⟨ch, hch⟩ := player_get_some f.g.m_player f.g.m_cursor h
  simp only [move_up, hch]
  split_ifs <;> exact ⟨_, rfl, rfl⟩

theorem move_down_some (i : Input) (f : Frame) (h : f.g.m_cursor ≤ 2) :
    ∃ f1, move_down i f = some f1 ∧ f1.g.m_cursor = f.g.m_cursor := by
  obtain ⟨ch, hch⟩ := player_get_some f.g.m_player f.g.m_cursor h
  simp only [move_down, hch]
  split_ifs <;> exact ⟨_, rfl, rfl⟩

theorem death_update_some (i : Input) (s : State) (h : s.m_cursor ≤ 2) :
    ∃ f, death_update i s = some (check_save i (reset_waiting f)) ∧ f.g.m_cursor ≤ 2 := by
  have h0 : (Frame.mk (flicker_setup i s) false).g.m_cursor ≤ 2 := by
    simpa using h
  have h2 := move_right_cursor_le i _ (move_left_cursor_le i _ h0)
  obtain ⟨f3, e3, c3⟩ := move_up_some i _ h2
  obtain ⟨f4, e4, c4⟩ := move_down_some i f3 (by omega)
  refine ⟨f4, ?_, by omega⟩
  simp only [death_update, e3, e4]

/-! ### The session invariant is kept by every block -/

theorem player_set_inRange (p : Player) (c ch v : Nat) (hp : p.inRange)
    (hg : p.get? c = some ch) (hv : 32 ≤ v ∧ v ≤ 90) : (p.set c v).inRange := by
  obtain ⟨h0, h1, h2⟩ := hp
  unfold Player.get? at hg
  unfold Player.set Player.inRange
  split at hg <;> simp_all

theorem player_get_inRange (p : Player) (c ch : Nat) (hp : p.inRange)
    (hg : p.get? c = some ch) : 32 ≤ ch ∧ ch ≤ 90 := by
  obtain ⟨h0, h1, h2⟩ := hp
  unfold Player.get? at hg
  split at hg <;> simp_all

theorem move_left_wf (i : Input) (f : Frame) (h : f.g.wf) : (move_left i f).g.wf := by
  obtain ⟨hc, hp⟩ := h
  unfold move_left State.wf
  split_ifs <;> refine ⟨?_, hp⟩ <;> (try simp only) <;> omega

theorem move_right_wf (i : Input) (f : Frame) (h : f.g.wf) : (move_right i f).g.wf := by
  obtain ⟨hc, hp⟩ := h
  unfold move_right State.wf
  split_ifs <;> refine ⟨?_, hp⟩ <;> (try simp only) <;> omega

theorem move_up_wf (i : Input) (f : Frame) (h : f.g.wf) :
    ∃ f1, move_up i f = some f1 ∧ f1.g.wf := by
  obtain ⟨hc, hp⟩ := h
  obtain ⟨ch, hch⟩ := player_get_some f.g.m_player f.g.m_cursor hc
  have hr := player_get_inRange _ _ _ hp hch
  simp only [move_up, hch]
  split_ifs with h1 h2 h3
  · exact ⟨_, rfl, hc, player_set_inRange _ _ _ _ hp hch ⟨by omega, by omega⟩⟩
  · exact ⟨_, rfl, hc, hp⟩
  · exact ⟨_, rfl, hc, hp⟩
  · exact ⟨_, rfl, hc, hp⟩

theorem move_down_wf (i : Input) (f : Frame) (h : f.g.wf) :
    ∃ f1, move_down i f = some f1 ∧ f1.g.wf := by
  obtain ⟨hc, hp⟩ := h
  obtain ⟨ch, hch⟩ := player_get_some f.g.m_player f.g.m_cursor hc
  have hr := player_get_inRange _ _ _ hp hch
  simp only [move_down, hch]
  split_ifs with h1 h2 h3
  · exact ⟨_, rfl, hc, player_set_inRange _ _ _ _ hp hch ⟨by omega, by omega⟩⟩
  · exact ⟨_, rfl, hc, hp⟩
  · exact ⟨_, rfl, hc, hp⟩
  · exact ⟨_, rfl, hc, hp⟩

theorem death_update_wf (i : Input) (s : State) (h : s.wf) :
    ∃ r, death_update i s = some r ∧ r.state.wf := by
  have h0 : (Frame.mk (flicker_setup i s) false).g.wf := by
    simpa [State.wf] using h
  have h2 := move_right_wf i _ (move_left_wf i _ h0)
  obtain ⟨f3, e3, w3⟩ := move_up_wf i _ h2
  obtain ⟨f4, e4, w4⟩ := move_down_wf i f3 w3
  refine ⟨check_save i (reset_waiting f4), by simp only [death_update, e3, e4], ?_⟩
  have h5 : (reset_waiting f4).wf := by
    unfold reset_waiting; split_ifs
    · exact w4
    · exact w4
  simpa [State.wf] using h5

theorem apply_wf (e : Event) (s : State) (h : s.wf) : ∃ s1, e.apply s = some s1 ∧ s1.wf := by
  cases e with
  | update i =>
    obtain ⟨r, hr, hw⟩ := death_update_wf i s h
    exact ⟨r.state, by simp [Event.apply, hr], hw⟩
  | wait_expiry => exact ⟨_, rfl, h⟩
  | flicker_tick => exact ⟨_, rfl, h⟩

theorem run_wf (es : List Event) (s : State) (h : s.wf) : ∃ s1, run es s = some s1 ∧ s1.wf := by
  induction es generalizing s with
  | nil => exact ⟨s, rfl, h⟩
  | cons e es ih =>
    obtain ⟨s1, h1, w1⟩ := apply_wf e s h
    obtain ⟨s2, h2, w2⟩ := ih s1 w1
    exact ⟨s2, by simp only [run, h1, h2], w2⟩

theorem death_check_score_wf (t sc : Nat) (s : State)
    (h : (death_check_score t sc s).1 = true) : (death_check_score t sc s).2.wf := by
  by_cases hlt : t < sc
  · simp [death_check_score, hlt, State.wf, Player.inRange]
  · simp [death_check_score, hlt] at h

/-! ### One call, by the state of the gate and the directions asserted -/

theorem only_asserts (i : Input) (d : Dir) (h : i.only d) : i.asserts d = true := by
  obtain ⟨h1, h2, h3, h4⟩ := h
  cases d <;> simp [Input.asserts, h1, h2, h3, h4]

theorem death_update_cursor_le (i : Input) (s : State) (h : s.m_cursor ≤ 2) :
    ∃ r, death_update i s = some r ∧ r.state.m_cursor ≤ 2 := by
  obtain ⟨f, hf, hc⟩ := death_update_some i s h
  refine ⟨_, hf, ?_⟩
  have : (reset_waiting f).m_cursor = f.g.m_cursor := by
    unfold reset_waiting; split_ifs <;> rfl
  simpa [this] using hc

theorem blocked_update (i : Input) (s : State) (d : Dir)
    (hw : s.m_waiting = true) (ha : i.asserts d = true) :
    ∃ r, death_update i s = some r ∧ r.state.m_cursor = s.m_cursor ∧
      r.state.m_player = s.m_player ∧ r.state.m_waiting = true := by
  cases hl : i.left <;> cases hr : i.right <;> cases hu : i.up <;> cases hd : i.down <;>
    first
    | (cases d <;> simp [Input.asserts, hl, hr, hu, hd] at ha; done)
    | simp [death_update, move_left, move_right, move_up, move_down, reset_waiting,
        hl, hr, hu, hd, hw]

theorem released_update (i : Input) (s : State) (h : i.released) :
    ∃ r, death_update i s = some r ∧ r.state.m_cursor = s.m_cursor ∧
      r.state.m_player = s.m_player ∧ r.state.m_waiting = false := by
  obtain ⟨h1, h2, h3, h4⟩ := h
  simp [death_update, move_left, move_right, move_up, move_down, reset_waiting,
      h1, h2, h3, h4]

theorem accepted_update (i : Input) (s : State) (d : Dir)
    (hw : s.m_waiting = false) (ho : i.only d) (hb : d.inBounds s) :
    ∃ r, death_update i s = some r ∧ d.moved s r.state ∧ r.state.m_waiting = true := by
  obtain ⟨h1, h2, h3, h4⟩ := ho
  cases d <;> simp only [Dir.inBounds] at hb
  · refine ⟨_, by simp [death_update, move_left, move_right, move_up, move_down, reset_waiting,
      h1, h2, h3, h4, hw, hb]; rfl, ?_, ?_⟩
    · simp [Dir.moved]; omega
    · simp
  · refine ⟨_, by simp [death_update, move_left, move_right, move_up, move_down, reset_waiting,
      h1, h2, h3, h4, hw, hb]; rfl, ?_, ?_⟩
    · simp [Dir.moved]
    · simp
  · obtain ⟨ch, hg, hlt⟩ := hb
    refine ⟨_, by simp [death_update, move_left, move_right, move_up, move_down, reset_waiting,
      h1, h2, h3, h4, hw, hg, hlt]; rfl, ?_, ?_⟩
    · simp [Dir.moved, hg]
    · simp
  · obtain ⟨ch, hg, hlt⟩ := hb
    refine ⟨_, by simp [death_update, move_left, move_right, move_up, move_down, reset_waiting,
      h1, h2, h3, h4, hw, hg, hlt]; rfl, ?_, ?_⟩
    · simp [Dir.moved, hg]; omega
    · simp

/-! ### The claims -/

/-- C1. `death_check_score` accepts a score exactly when it is strictly above
the lowest table entry; an accepted call leaves score `s`, letters
`('A','A','A')` and cursor 0, and a rejected call leaves score, letters and
cursor as they were. -/
theorem death_check_score_accepts_iff (t s : Nat) (st : State) :
    ((death_check_score t s st).1 = true ↔ t < s) ∧
    ((death_check_score t s st).1 = true ∧
        (death_check_score t s st).2.m_score = s ∧
        (death_check_score t s st).2.m_player = { c0 := 65, c1 := 65, c2 := 65 } ∧
        (death_check_score t s st).2.m_cursor = 0
      ∨
      (death_check_score t s st).1 = false ∧
        (death_check_score t s st).2.m_score = st.m_score ∧
        (death_check_score t s st).2.m_player = st.m_player ∧
        (death_check_score t s st).2.m_cursor = st.m_cursor) := by
  unfold death_check_score
  by_cases h : t < s <;> simp [h]

/-- C2 (as stated, refuted). With the gate not blocking, cursor 1 and the
letter under the cursor `'A'`, one `death_update` call with left and up both
pressed moves the cursor to 0 but increments no letter: all three letters
are still `'A'`. -/
theorem diagonal_up_is_suppressed :
    (sample 0 aaa 1 false).m_waiting = false ∧ 1 ≤ (sample 0 aaa 1 false).m_cursor ∧
    (sample 0 aaa 1 false).m_player.get? (sample 0 aaa 1 false).m_cursor = some 65 ∧
    diag.left = true ∧ diag.up = true ∧
    (death_update diag (sample 0 aaa 1 false)).map
        (fun r => (r.state.m_cursor, r.state.m_player)) = some (0, aaa) := by
  decide

/-- C2 (amended). With the gate not blocking and cursor at least 1, one
`death_update` call with left and up both asserted moves the cursor left by
one, leaves all three letters unchanged (the left move arms the gate, which
suppresses the up move of the same call) and leaves the gate blocking. -/
theorem diagonal_left_up_moves_cursor_only (i : Input) (s : State)
    (hw : s.m_waiting = false) (hc : 1 ≤ s.m_cursor)
    (hl : i.left = true) (hu : i.up = true) :
    ∃ r, death_update i s = some r ∧ r.state.m_cursor + 1 = s.m_cursor ∧
      r.state.m_player = s.m_player ∧ r.state.m_waiting = true := by
  have h0 : 0 < s.m_cursor := hc
  cases hb : i.button_b <;> cases hr : i.right <;> cases hd : i.down <;>
    simp [death_update, move_left, move_right, move_up, move_down, reset_waiting, check_save,
      flicker_setup, hw, hl, hu, h0, hb, hr, hd, apply_ite] <;> omega

/-- Witness of the amended C2 at cursor 1, letters `"AAA"`, left and up pressed. -/
theorem diagonal_left_up_moves_cursor_only_witness :
    ∃ r, death_update diag (sample 0 aaa 1 false) = some r ∧
      r.state.m_cursor + 1 = (sample 0 aaa 1 false).m_cursor ∧
      r.state.m_player = (sample 0 aaa 1 false).m_player ∧ r.state.m_waiting = true :=
  diagonal_left_up_moves_cursor_only diag (sample 0 aaa 1 false)
    (by decide) (by decide) (by decide) (by decide)

/-- C3. On every state with the cursor inside the array and for every input,
`death_update` returns `STATE_HISCORE` with exactly one save call, carrying
the score and the three letters of the state it leaves, when button B is
pressed, and returns `STATE_DEATH` with no save call when it is not. -/
theorem death_update_commits_iff_confirm (i : Input) (s : State) (hc : s.m_cursor ≤ 2) :
    ∃ r, death_update i s = some r ∧
      (i.button_b = true ∧ r.ret = gamestate_t.STATE_HISCORE ∧
          r.saved = [(r.state.m_score, r.state.m_player)]
        ∨ i.button_b = false ∧ r.ret = gamestate_t.STATE_DEATH ∧ r.saved = []) := by
  obtain ⟨f, hf, -⟩ := death_update_some i s hc
  refine ⟨_, hf, ?_⟩
  cases hb : i.button_b <;> simp [check_save, hb]

/-- Witness of C3: the session with score 1500, letters `"BXQ"` and cursor 1,
with only confirm pressed, returns `STATE_HISCORE` with the single save call
`(1500, "BXQ")`. -/
theorem death_update_commits_iff_confirm_witness :
    (sample 1500 bxq 1 false).m_cursor ≤ 2 ∧
    (∃ r, death_update confirm_only (sample 1500 bxq 1 false) = some r ∧
      (confirm_only.button_b = true ∧ r.ret = gamestate_t.STATE_HISCORE ∧
          r.saved = [(r.state.m_score, r.state.m_player)]
        ∨ confirm_only.button_b = false ∧ r.ret = gamestate_t.STATE_DEATH ∧ r.saved = [])) ∧
    (death_update confirm_only (sample 1500 bxq 1 false)).map
        (fun r => (r.ret, r.saved)) = some (gamestate_t.STATE_HISCORE, [(1500, bxq)]) :=
  ⟨by decide, death_update_commits_iff_confirm confirm_only (sample 1500 bxq 1 false) (by decide),
    by decide⟩

/-- C4. Cursor invariant: from the session an accepted `death_check_score`
leaves (on any earlier module state), every finite sequence of
`death_update` calls with arbitrary inputs, interleaved with arbitrary
wait-timer expiries and flicker ticks, runs to a state, and the cursor of
that state is in `[0, 2]`. -/
theorem cursor_stays_in_range (t sc : Nat) (s0 : State) (es : List Event)
    (h : (death_check_score t sc s0).1 = true) :
    ∃ s1, run es (death_check_score t sc s0).2 = some s1 ∧ s1.m_cursor ≤ 2 := by
  obtain ⟨s1, h1, hc, -⟩ := run_wf es _ (death_check_score_wf t sc s0 h)
  exact ⟨s1, h1, hc⟩

/-- Witness of C4: score 1500 against a lowest entry of 1000, entered on a
stale module state, followed by the sample play. -/
theorem cursor_stays_in_range_witness :
    (death_check_score 1000 1500 stale).1 = true ∧
    ∃ s1, run play (death_check_score 1000 1500 stale).2 = some s1 ∧ s1.m_cursor ≤ 2 :=
  ⟨by decide, cursor_stays_in_range 1000 1500 stale play (by decide)⟩

/-- C5. Letter invariant: from the session an accepted `death_check_score`
leaves, every finite sequence of `death_update` calls with arbitrary inputs,
interleaved with arbitrary wait-timer expiries and flicker ticks, runs to a
state, and each of its three letters has a character code in `[32, 90]`,
that is in `[' ', 'Z']`. -/
theorem letters_stay_in_range (t sc : Nat) (s0 : State) (es : List Event)
    (h : (death_check_score t sc s0).1 = true) :
    ∃ s1, run es (death_check_score t sc s0).2 = some s1 ∧
      (32 ≤ s1.m_player.c0 ∧ s1.m_player.c0 ≤ 90) ∧
      (32 ≤ s1.m_player.c1 ∧ s1.m_player.c1 ≤ 90) ∧
      (32 ≤ s1.m_player.c2 ∧ s1.m_player.c2 ≤ 90) := by
  obtain ⟨s1, h1, -, hp⟩ := run_wf es _ (death_check_score_wf t sc s0 h)
  exact ⟨s1, h1, hp⟩

/-- Witness of C5: score 1 against an empty table (lowest entry 0), entered
on a fresh module state, followed by the sample play twice. -/
theorem letters_stay_in_range_witness :
    (death_check_score 0 1 (sample 0 aaa 0 false)).1 = true ∧
    ∃ s1, run (play ++ play) (death_check_score 0 1 (sample 0 aaa 0 false)).2 = some s1 ∧
      (32 ≤ s1.m_player.c0 ∧ s1.m_player.c0 ≤ 90) ∧
      (32 ≤ s1.m_player.c1 ∧ s1.m_player.c1 ≤ 90) ∧
      (32 ≤ s1.m_player.c2 ∧ s1.m_player.c2 ≤ 90) :=
  ⟨by decide, letters_stay_in_range 0 1 (sample 0 aaa 0 false) (play ++ play) (by decide)⟩

/-- C6. Rejected moves at a bound do not arm the gate: with the gate not
blocking, a `death_update` call whose only asserted direction is left at
cursor 0, right at cursor 2, up on the letter `'Z'` or down on the letter
`' '` leaves the cursor and all three letters unchanged and leaves the gate
not blocking. -/
theorem rejected_move_does_not_arm (i : Input) (s : State) (d : Dir)
    (hw : s.m_waiting = false) (ho : i.only d) (hb : d.atBound s) :
    ∃ r, death_update i s = some r ∧ r.state.m_cursor = s.m_cursor ∧
      r.state.m_player = s.m_player ∧ r.state.m_waiting = false := by
  obtain ⟨h1, h2, h3, h4⟩ := ho
  cases d <;> simp only [Dir.atBound] at hb <;>
    simp [death_update, move_left, move_right, move_up, move_down, reset_waiting,
      h1, h2, h3, h4, hw, hb]

/-- Witness of C6: down, by the stick, on a blank under the cursor. -/
theorem rejected_move_does_not_arm_witness :
    (sample 10 { c0 := 65, c1 := 32, c2 := 90 } 1 false).m_waiting = false ∧
    down_only.only Dir.down ∧
    Dir.down.atBound (sample 10 { c0 := 65, c1 := 32, c2 := 90 } 1 false) ∧
    ∃ r, death_update down_only (sample 10 { c0 := 65, c1 := 32, c2 := 90 } 1 false) = some r ∧
      r.state.m_cursor = (sample 10 { c0 := 65, c1 := 32, c2 := 90 } 1 false).m_cursor ∧
      r.state.m_player = (sample 10 { c0 := 65, c1 := 32, c2 := 90 } 1 false).m_player ∧
      r.state.m_waiting = false :=
  ⟨by decide, by decide, by decide,
    rejected_move_does_not_arm down_only (sample 10 { c0 := 65, c1 := 32, c2 := 90 } 1 false)
      Dir.down (by decide) (by decide) (by decide)⟩

/-- C7. Debounce within the cool-down: from a state whose gate is not
blocking, when the same single direction is asserted on two consecutive
`death_update` calls and the first call's move is in bounds, the first call
makes exactly that one step and the second call leaves the cursor and all
letters as the first call left them. -/
theorem held_direction_registers_once (i1 i2 : Input) (s : State) (d : Dir)
    (hw : s.m_waiting = false) (h1 : i1.only d) (h2 : i2.only d) (hb : d.inBounds s) :
    ∃ r1 r2, death_update i1 s = some r1 ∧ death_update i2 r1.state = some r2 ∧
      d.moved s r1.state ∧
      r2.state.m_cursor = r1.state.m_cursor ∧ r2.state.m_player = r1.state.m_player := by
  obtain ⟨r1, e1, m1, w1⟩ := accepted_update i1 s d hw h1 hb
  obtain ⟨r2, e2, c2, p2, -⟩ := blocked_update i2 r1.state d w1 (only_asserts i2 d h2)
  exact ⟨r1, r2, e1, e2, m1, c2, p2⟩

/-- Witness of C7: up held for two frames on the letter `'X'` of `"BXQ"`. -/
theorem held_direction_registers_once_witness :
    (sample 1500 bxq 1 false).m_waiting = false ∧ up_only.only Dir.up ∧
    Dir.up.inBounds (sample 1500 bxq 1 false) ∧
    ∃ r1 r2, death_update up_only (sample 1500 bxq 1 false) = some r1 ∧
      death_update up_only r1.state = some r2 ∧
      Dir.up.moved (sample 1500 bxq 1 false) r1.state ∧
      r2.state.m_cursor = r1.state.m_cursor ∧ r2.state.m_player = r1.state.m_player :=
  ⟨by decide, by decide, ⟨88, by decide, by decide⟩,
    held_direction_registers_once up_only up_only (sample 1500 bxq 1 false) Dir.up
      (by decide) (by decide) (by decide) ⟨88, by decide, by decide⟩⟩

/-- C8. Release cancels the cool-down: on every state, a `death_update` call
with no direction asserted leaves cursor and letters unchanged and leaves
the gate not blocking; hence in the three calls update(d), update(no
direction), update(d) from a state with the cursor inside the array, the
third call makes its step whenever that step is in bounds, and right from
cursor 0 with the gate open ends at cursor 2. -/
theorem release_cancels_cooldown (i1 i2 i3 : Input) (s : State) (d : Dir)
    (hc : s.m_cursor ≤ 2) (h1 : i1.only d) (h2 : i2.released) (h3 : i3.only d) :
    (∀ s0 : State, ∃ r, death_update i2 s0 = some r ∧ r.state.m_cursor = s0.m_cursor ∧
      r.state.m_player = s0.m_player ∧ r.state.m_waiting = false) ∧
    ∃ r1 r2 r3, death_update i1 s = some r1 ∧ death_update i2 r1.state = some r2 ∧
      death_update i3 r2.state = some r3 ∧
      (d.inBounds r2.state → d.moved r2.state r3.state) ∧
      (d = Dir.right → s.m_waiting = false → s.m_cursor = 0 → r3.state.m_cursor = 2) := by
  refine ⟨fun s0 => released_update i2 s0 h2, ?_⟩
  obtain ⟨r1, e1, c1⟩ := death_update_cursor_le i1 s hc
  obtain ⟨r2, e2, c2, p2, w2⟩ := released_update i2 r1.state h2
  obtain ⟨r3, e3, -⟩ := death_update_cursor_le i3 r2.state (by omega)
  have key : d.inBounds r2.state → d.moved r2.state r3.state := by
    intro hb
    obtain ⟨r, er, mr, -⟩ := accepted_update i3 r2.state d w2 h3 hb
    rw [e3] at er
    cases er
    exact mr
  refine ⟨r1, r2, r3, e1, e2, e3, key, ?_⟩
  intro hd hw h0
  subst hd
  obtain ⟨r, er, mr, -⟩ := accepted_update i1 s Dir.right hw h1 (by simp [Dir.inBounds, h0])
  rw [e1] at er
  cases er
  have m3 := key (by simp only [Dir.inBounds]; simp only [Dir.moved] at mr; omega)
  simp only [Dir.moved] at mr m3
  omega

/-- Witness of C8: right, release, right from cursor 0 with the gate open ends
at cursor 2. -/
theorem release_cancels_cooldown_witness :
    (sample 1500 aaa 0 false).m_cursor ≤ 2 ∧ right_only.only Dir.right ∧ idle.released ∧
    ∃ r1 r2 r3, death_update right_only (sample 1500 aaa 0 false) = some r1 ∧
      death_update idle r1.state = some r2 ∧ death_update right_only r2.state = some r3 ∧
      r3.state.m_cursor = 2 := by
  refine ⟨by decide, by decide, by decide, ?_⟩
  obtain ⟨-, r1, r2, r3, e1, e2, e3, -, h⟩ :=
    release_cancels_cooldown right_only idle right_only (sample 1500 aaa 0 false) Dir.right
      (by decide) (by decide) (by decide) (by decide)
  exact ⟨r1, r2, r3, e1, e2, e3, h rfl rfl rfl⟩

/-! ### The callback run `n` times and the counter iterated `n` times -/

theorem run_flicker_ticks (n : Nat) (s : State) :
    (run (flicker_ticks n) s).map State.ls_loopcount = some (ticks n s.ls_loopcount) := by
  induction n generalizing s with
  | zero => rfl
  | succ n ih =>
    have h := ih (_death_flicker_timer_update s)
    simpa [flicker_ticks, List.replicate_succ, run, Event.apply, ticks,
      _death_flicker_timer_update] using h

theorem phase_after_eq (n : Nat) (s : State) : phase_after n s = some (ticks n 0) :=
  run_flicker_ticks n s.fresh

set_option maxRecDepth 4000 in
/-- C9 (as stated, refuted). From phase 0, the phase after 48 flicker ticks is
1200 and the phase after a further 48 ticks, 96 in all, is 1175: they
differ.  The same holds of the callback run 48 and 96 times on a module
state with a fresh counter. -/
theorem phase_48_differs_from_phase_96 :
    (ticks 48 0 = 1200 ∧ ticks 48 (ticks 48 0) = 1175 ∧ ticks 96 0 = 1175 ∧
      ticks 48 0 ≠ ticks 96 0) ∧
    phase_after 48 (sample 0 aaa 0 false) = some 1200 ∧
    phase_after 96 (sample 0 aaa 0 false) = some 1175 ∧
    phase_after 48 (sample 0 aaa 0 false) ≠ phase_after 96 (sample 0 aaa 0 false) := by
  rw [phase_after_eq, phase_after_eq]
  decide

set_option maxRecDepth 4000 in
/-- C9 (amended). From phase 0, applying the flicker tick 49 times yields the
same phase as applying it a further 49 times from there: the phase after 49
ticks equals the phase after 98 ticks (both are 0).  The same holds of the
callback run 49 and 98 times on every module state with a fresh counter. -/
theorem phase_49_equals_phase_98 :
    (ticks 49 (ticks 49 0) = ticks 49 0 ∧ ticks 98 0 = ticks 49 0 ∧ ticks 49 0 = 0) ∧
    ∀ s : State, phase_after 49 s = phase_after 98 s ∧ phase_after 49 s = some 0 := by
  refine ⟨by decide, fun s => ?_⟩
  rw [phase_after_eq, phase_after_eq]
  decide

/-- C10. After every flicker tick the published colour is
`(phase mod 255, (phase mod 512) / 2, 255 - phase mod 255, 255)` and the
gradient row is `(phase / 10) mod 120`, for the new phase; two clocks whose
ticks end at the same phase publish the same colour and row. -/
theorem flicker_tick_publishes (s s2 : State) :
    (_death_flicker_timer_update s).m_text_colour =
      { r := (_death_flicker_timer_update s).ls_loopcount % 255,
        g := ((_death_flicker_timer_update s).ls_loopcount % 512) / 2,
        b := 255 - (_death_flicker_timer_update s).ls_loopcount % 255,
        a := 255 } ∧
    (_death_flicker_timer_update s).m_gradient_row =
      ((_death_flicker_timer_update s).ls_loopcount / 10) % 120 ∧
    ((_death_flicker_timer_update s).ls_loopcount =
        (_death_flicker_timer_update s2).ls_loopcount →
      (_death_flicker_timer_update s).m_text_colour =
        (_death_flicker_timer_update s2).m_text_colour ∧
      (_death_flicker_timer_update s).m_gradient_row =
        (_death_flicker_timer_update s2).m_gradient_row) := by
  refine ⟨?_, ?_, ?_⟩
  · simp only [_death_flicker_timer_update, Pen.rgba, Pen.mk.injEq]
    refine ⟨?_, ?_, ?_, ?_⟩ <;> first | trivial | omega
  · simp only [_death_flicker_timer_update]
    generalize flicker_phase s.ls_loopcount = x
    omega
  · intro h
    simp only [_death_flicker_timer_update] at h ⊢
    rw [h]
    exact ⟨rfl, rfl⟩

/-! ### What one call and one run keep -/

@[simp] theorem flicker_setup_wait_timer (i : Input) (s : State) :
    (flicker_setup i s).m_wait_timer = s.m_wait_timer := by
  unfold flicker_setup; split_ifs <;> rfl

@[simp] theorem check_save_wait_timer (i : Input) (s : State) :
    (check_save i s).state.m_wait_timer = s.m_wait_timer := by
  unfold check_save; split_ifs <;> rfl

theorem death_update_eq_some (i : Input) (s : State) (r : UpdateResult)
    (h : death_update i s = some r) :
    ∃ f3 f4, move_up i (move_right i (move_left i { g := flicker_setup i s, l_moving := false }))
        = some f3 ∧ move_down i f3 = some f4 ∧ r = check_save i (reset_waiting f4) := by
  cases e3 : move_up i (move_right i (move_left i { g := flicker_setup i s, l_moving := false })) with
  | none => simp [death_update, e3] at h
  | some f3 =>
    cases e4 : move_down i f3 with
    | none => simp [death_update, e3, e4] at h
    | some f4 =>
      simp only [death_update, e3, e4, Option.some.injEq] at h
      exact ⟨f3, f4, rfl, e4, h.symm⟩

theorem move_left_score (i : Input) (f : Frame) : (move_left i f).g.m_score = f.g.m_score := by
  unfold move_left; split_ifs <;> rfl

theorem move_right_score (i : Input) (f : Frame) : (move_right i f).g.m_score = f.g.m_score := by
  unfold move_right; split_ifs <;> rfl

theorem move_up_score (i : Input) (f f1 : Frame) (h : move_up i f = some f1) :
    f1.g.m_score = f.g.m_score := by
  unfold move_up at h
  split_ifs at h
  · split at h
    · cases h
    · split_ifs at h <;> cases h <;> rfl
  · cases h; rfl
  · cases h; rfl

theorem move_down_score (i : Input) (f f1 : Frame) (h : move_down i f = some f1) :
    f1.g.m_score = f.g.m_score := by
  unfold move_down at h
  split_ifs at h
  · split at h
    · cases h
    · split_ifs at h <;> cases h <;> rfl
  · cases h; rfl
  · cases h; rfl

theorem reset_waiting_score (f : Frame) : (reset_waiting f).m_score = f.g.m_score := by
  unfold reset_waiting; split_ifs <;> rfl

theorem death_update_score (i : Input) (s : State) (r : UpdateResult)
    (h : death_update i s = some r) : r.state.m_score = s.m_score := by
  obtain ⟨f3, f4, e3, e4, rfl⟩ := death_update_eq_some i s r h
  rw [check_save_score, reset_waiting_score, move_down_score i f3 f4 e4,
    move_up_score i _ f3 e3, move_right_score, move_left_score]
  simp

theorem apply_score (e : Event) (s s1 : State) (h : e.apply s = some s1) :
    s1.m_score = s.m_score := by
  cases e with
  | update i =>
    simp only [Event.apply, Option.map_eq_some'] at h
    obtain ⟨r, hr, rfl⟩ := h
    exact death_update_score i s r hr
  | wait_expiry => cases h; rfl
  | flicker_tick => cases h; rfl

theorem run_score (es : List Event) (s s1 : State) (h : run es s = some s1) :
    s1.m_score = s.m_score := by
  induction es generalizing s with
  | nil => cases h; rfl
  | cons e es ih =>
    simp only [run] at h
    split at h
    · cases h
    · rename_i s2 e2
      rw [ih s2 h, apply_score e s s2 e2]

theorem death_check_score_score (t sc : Nat) (s : State)
    (h : (death_check_score t sc s).1 = true) : (death_check_score t sc s).2.m_score = sc := by
  by_cases hlt : t < sc
  · simp [death_check_score, hlt]
  · simp [death_check_score, hlt] at h

/-! ### The claims, continued -/

/-- C11. Score is immutable while editing: `death_update`, on every state with
the cursor inside the array and for every input, and the wait-timer expiry
callback leave `m_score` unchanged; so after an accepted
`death_check_score( sc )` and any sequence of frames, expiries and ticks, the
next `death_update` still holds score `sc` and, when button B is pressed,
passes exactly `sc` to the save. -/
theorem score_is_immutable (t sc : Nat) (s0 : State) (es : List Event) (i : Input)
    (h : (death_check_score t sc s0).1 = true) :
    (∀ (j : Input) (s : State), s.m_cursor ≤ 2 →
      ∃ r, death_update j s = some r ∧ r.state.m_score = s.m_score) ∧
    (∀ s : State, (_death_wait_timer_update s).m_score = s.m_score) ∧
    ∃ s1 r, run es (death_check_score t sc s0).2 = some s1 ∧ death_update i s1 = some r ∧
      s1.m_score = sc ∧ r.state.m_score = sc ∧
      (i.button_b = true → r.saved = [(sc, r.state.m_player)]) := by
  refine ⟨?_, fun s => rfl, ?_⟩
  · intro j s hs
    obtain ⟨f, hf, -⟩ := death_update_some j s hs
    exact ⟨_, hf, death_update_score j s _ hf⟩
  · obtain ⟨s1, h1, hc, -⟩ := run_wf es _ (death_check_score_wf t sc s0 h)
    obtain ⟨f, hf, -⟩ := death_update_some i s1 hc
    have e1 : s1.m_score = sc := by
      rw [run_score es _ s1 h1, death_check_score_score t sc s0 h]
    have e2 := death_update_score i s1 _ hf
    refine ⟨s1, _, h1, hf, e1, by rw [e2, e1], ?_⟩
    intro hb
    have e3 : (reset_waiting f).m_score = sc := by
      have := e2
      rw [check_save_score] at this
      rw [this, e1]
    simp [check_save, hb, e3]

/-- Witness of C11: score 1500 entered on a stale module state, the sample
play, then a frame with only confirm pressed. -/
theorem score_is_immutable_witness :
    (death_check_score 1000 1500 stale).1 = true ∧
    ∃ s1 r, run play (death_check_score 1000 1500 stale).2 = some s1 ∧
      death_update confirm_only s1 = some r ∧
      s1.m_score = 1500 ∧ r.state.m_score = 1500 ∧
      (confirm_only.button_b = true → r.saved = [(1500, r.state.m_player)]) :=
  ⟨by decide, (score_is_immutable 1000 1500 stale play confirm_only (by decide)).2.2⟩

/-! ### The gate/timer predicate through the blocks -/

theorem move_left_gateInv (i : Input) (f : Frame) (h : f.g.gateInv) :
    (move_left i f).g.gateInv := by
  unfold move_left
  split_ifs
  · intro _; rfl
  · exact h
  · exact h
  · exact h

theorem move_right_gateInv (i : Input) (f : Frame) (h : f.g.gateInv) :
    (move_right i f).g.gateInv := by
  unfold move_right
  split_ifs
  · intro _; rfl
  · exact h
  · exact h
  · exact h

theorem move_up_gateInv (i : Input) (f f1 : Frame) (h : f.g.gateInv)
    (e : move_up i f = some f1) : f1.g.gateInv := by
  unfold move_up at e
  split_ifs at e
  · split at e
    · cases e
    · split_ifs at e <;> cases e
      · intro _; rfl
      · exact h
  · cases e; exact h
  · cases e; exact h

theorem move_down_gateInv (i : Input) (f f1 : Frame) (h : f.g.gateInv)
    (e : move_down i f = some f1) : f1.g.gateInv := by
  unfold move_down at e
  split_ifs at e
  · split at e
    · cases e
    · split_ifs at e <;> cases e
      · intro _; rfl
      · exact h
  · cases e; exact h
  · cases e; exact h

theorem reset_waiting_gateInv (f : Frame) (h : f.g.gateInv) : (reset_waiting f).gateInv := by
  unfold reset_waiting
  split_ifs
  · intro hw; simp at hw
  · exact h

theorem death_update_gateInv (i : Input) (s : State) (r : UpdateResult) (h : s.gateInv)
    (e : death_update i s = some r) : r.state.gateInv := by
  obtain ⟨f3, f4, e3, e4, rfl⟩ := death_update_eq_some i s r e
  have h0 : (Frame.mk (flicker_setup i s) false).g.gateInv := by
    simpa [State.gateInv] using h
  have h4 := reset_waiting_gateInv f4
    (move_down_gateInv i f3 f4
      (move_up_gateInv i _ f3 (move_right_gateInv i _ (move_left_gateInv i _ h0)) e3) e4)
  simpa [State.gateInv] using h4

theorem apply_gateInv (e : Event) (s s1 : State) (h : s.gateInv) (he : e.apply s = some s1) :
    s1.gateInv := by
  cases e with
  | update i =>
    simp only [Event.apply, Option.map_eq_some'] at he
    obtain ⟨r, hr, rfl⟩ := he
    exact death_update_gateInv i s r h hr
  | wait_expiry =>
    cases he
    intro hw
    simp [_death_wait_timer_update] at hw
  | flicker_tick => cases he; exact h

theorem run_gateInv (es : List Event) (s s1 : State) (h : s.gateInv) (he : run es s = some s1) :
    s1.gateInv := by
  induction es generalizing s with
  | nil => cases he; exact h
  | cons e es ih =>
    simp only [run] at he
    split at he
    · cases he
    · rename_i s2 e2
      exact ih s2 (apply_gateInv e s s2 h e2) he

/-- C12. Gate/timer invariant: "the waiting flag is set only while the wait
timer is running" holds in every state whose flag is clear (the initial
state among them) and is preserved by `death_check_score`, by
`death_update` for every input (which returns on every state with the
cursor inside the array), by the wait-timer expiry callback, and hence by
every run of updates, expiries and ticks. -/
theorem gate_timer_invariant (t sc : Nat) (i : Input) (s : State) (h : s.gateInv) :
    (∀ s0 : State, s0.m_waiting = false → s0.gateInv) ∧
    (death_check_score t sc s).2.gateInv ∧
    (∀ r, death_update i s = some r → r.state.gateInv) ∧
    (s.m_cursor ≤ 2 → ∃ r, death_update i s = some r ∧ r.state.gateInv) ∧
    (_death_wait_timer_update s).gateInv ∧
    (∀ es s1, run es s = some s1 → s1.gateInv) := by
  refine ⟨?_, ?_, fun r e => death_update_gateInv i s r h e, ?_, ?_,
    fun es s1 e => run_gateInv es s s1 h e⟩
  · intro s0 h0 hw
    rw [h0] at hw
    cases hw
  · unfold death_check_score
    split_ifs
    · exact h
    · exact h
  · intro hc
    obtain ⟨f, hf, -⟩ := death_update_some i s hc
    exact ⟨_, hf, death_update_gateInv i s _ h hf⟩
  · intro hw
    simp [_death_wait_timer_update] at hw

/-- Witness of C12: a session in the middle of a cool-down, flag set and wait
timer running, with right held. -/
theorem gate_timer_invariant_witness :
    cooling.gateInv ∧ cooling.m_cursor ≤ 2 ∧
    (death_check_score 1000 1500 cooling).2.gateInv ∧
    (_death_wait_timer_update cooling).gateInv ∧
    (∃ r, death_update right_only cooling = some r ∧ r.state.gateInv) :=
  have h := gate_timer_invariant 1000 1500 right_only cooling (by decide)
  ⟨by decide, by decide, h.2.1, h.2.2.2.2.1, h.2.2.2.1 (by decide)⟩

/-- C13. Blocking suppresses every direction: on every state whose gate is
blocking, a `death_update` call with at least one direction asserted leaves
the cursor and all three letters unchanged and leaves the gate blocking. -/
theorem blocking_suppresses_every_direction (i : Input) (s : State)
    (hw : s.m_waiting = true)
    (ha : i.left = true ∨ i.right = true ∨ i.up = true ∨ i.down = true) :
    ∃ r, death_update i s = some r ∧ r.state.m_cursor = s.m_cursor ∧
      r.state.m_player = s.m_player ∧ r.state.m_waiting = true := by
  rcases ha with ha | ha | ha | ha
  · exact blocked_update i s Dir.left hw ha
  · exact blocked_update i s Dir.right hw ha
  · exact blocked_update i s Dir.up hw ha
  · exact blocked_update i s Dir.down hw ha

/-- Witness of C13: left and up together on a blocking gate. -/
theorem blocking_suppresses_every_direction_witness :
    (sample 1500 bxq 1 true).m_waiting = true ∧
    (diag.left = true ∨ diag.right = true ∨ diag.up = true ∨ diag.down = true) ∧
    ∃ r, death_update diag (sample 1500 bxq 1 true) = some r ∧
      r.state.m_cursor = (sample 1500 bxq 1 true).m_cursor ∧
      r.state.m_player = (sample 1500 bxq 1 true).m_player ∧ r.state.m_waiting = true :=
  ⟨by decide, by decide,
    blocking_suppresses_every_direction diag (sample 1500 bxq 1 true) (by decide) (by decide)⟩

/-- C14. Hold-to-repeat: the wait-timer expiry callback clears the waiting
flag and stops the wait timer, leaving score, letters and cursor unchanged;
with right held from cursor 0 and the gate open, update, expiry, update ends
at cursor 2, while the second update without the expiry stays at cursor 1. -/
theorem hold_repeats_after_expiry (i1 i2 : Input) (s : State)
    (hc : s.m_cursor = 0) (hw : s.m_waiting = false)
    (h1 : i1.only Dir.right) (h2 : i2.only Dir.right) :
    (∀ s0 : State, (_death_wait_timer_update s0).m_waiting = false ∧
      (_death_wait_timer_update s0).m_wait_timer.running = false ∧
      (_death_wait_timer_update s0).m_score = s0.m_score ∧
      (_death_wait_timer_update s0).m_player = s0.m_player ∧
      (_death_wait_timer_update s0).m_cursor = s0.m_cursor) ∧
    (∃ s1, run [Event.update i1, Event.wait_expiry, Event.update i2] s = some s1 ∧
      s1.m_cursor = 2) ∧
    (∃ s1, run [Event.update i1, Event.update i2] s = some s1 ∧ s1.m_cursor = 1) := by
  refine ⟨fun s0 => ⟨rfl, rfl, rfl, rfl, rfl⟩, ?_, ?_⟩
  · obtain ⟨r1, e1, m1, -⟩ := accepted_update i1 s Dir.right hw h1
      (by simp only [Dir.inBounds]; omega)
    simp only [Dir.moved] at m1
    obtain ⟨r2, e2, m2, -⟩ := accepted_update i2 (_death_wait_timer_update r1.state) Dir.right
      rfl h2 (by simp only [Dir.inBounds, _death_wait_timer_update]; omega)
    simp only [Dir.moved, _death_wait_timer_update] at m2
    refine ⟨r2.state, ?_, by omega⟩
    simp [run, Event.apply, e1, e2]
  · obtain ⟨r1, e1, m1, w1⟩ := accepted_update i1 s Dir.right hw h1
      (by simp only [Dir.inBounds]; omega)
    simp only [Dir.moved] at m1
    obtain ⟨r2, e2, c2, -, -⟩ := blocked_update i2 r1.state Dir.right w1 (only_asserts i2 _ h2)
    refine ⟨r2.state, ?_, by omega⟩
    simp [run, Event.apply, e1, e2]

/-- Witness of C14: right held on a fresh `"AAA"` session. -/
theorem hold_repeats_after_expiry_witness :
    (sample 1500 aaa 0 false).m_cursor = 0 ∧ (sample 1500 aaa 0 false).m_waiting = false ∧
    right_only.only Dir.right ∧
    (∃ s1, run [Event.update right_only, Event.wait_expiry, Event.update right_only]
        (sample 1500 aaa 0 false) = some s1 ∧ s1.m_cursor = 2) ∧
    (∃ s1, run [Event.update right_only, Event.update right_only]
        (sample 1500 aaa 0 false) = some s1 ∧ s1.m_cursor = 1) :=
  ⟨by decide, by decide, by decide,
    (hold_repeats_after_expiry right_only right_only (sample 1500 aaa 0 false)
      (by decide) (by decide) (by decide) (by decide)).2⟩

/-! ### One call on an open gate, by the first direction that can move -/

theorem open_gate_left (i : Input) (s : State) (hw : s.m_waiting = false)
    (hl : i.left = true) (hb : 0 < s.m_cursor) :
    ∃ r, death_update i s = some r ∧ Dir.left.moved s r.state ∧ r.state.m_waiting = true := by
  cases hr : i.right <;> cases hu : i.up <;> cases hd : i.down <;>
    simp [death_update, move_left, move_right, move_up, move_down, reset_waiting,
      Dir.moved, hw, hl, hr, hu, hd, hb] <;> omega

theorem open_gate_right (i : Input) (s : State) (hw : s.m_waiting = false)
    (hl : i.left = true → ¬ 0 < s.m_cursor) (hr : i.right = true) (hb : s.m_cursor < 2) :
    ∃ r, death_update i s = some r ∧ Dir.right.moved s r.state ∧ r.state.m_waiting = true := by
  cases hL : i.left <;> cases hu : i.up <;> cases hd : i.down <;>
    simp [death_update, move_left, move_right, move_up, move_down, reset_waiting,
      Dir.moved, hw, hL, hl, hr, hu, hd, hb]

theorem open_gate_up (i : Input) (s : State) (ch : Nat) (hw : s.m_waiting = false)
    (hl : i.left = true → ¬ 0 < s.m_cursor) (hr : i.right = true → ¬ s.m_cursor < 2)
    (hu : i.up = true) (hg : s.m_player.get? s.m_cursor = some ch) (hb : ch < 90) :
    ∃ r, death_update i s = some r ∧ Dir.up.moved s r.state ∧ r.state.m_waiting = true := by
  cases hL : i.left <;> cases hR : i.right <;> cases hd : i.down <;>
    simp [death_update, move_left, move_right, move_up, move_down, reset_waiting,
      Dir.moved, hw, hL, hR, hl, hr, hu, hd, hg, hb]

theorem open_gate_down (i : Input) (s : State) (ch : Nat) (hw : s.m_waiting = false)
    (hl : i.left = true → ¬ 0 < s.m_cursor) (hr : i.right = true → ¬ s.m_cursor < 2)
    (hu : i.up = true → ¬ ch < 90) (hd : i.down = true)
    (hg : s.m_player.get? s.m_cursor = some ch) (hb : 32 < ch) :
    ∃ r, death_update i s = some r ∧ Dir.down.moved s r.state ∧ r.state.m_waiting = true := by
  cases hL : i.left <;> cases hR : i.right <;> cases hU : i.up <;>
    simp [death_update, move_left, move_right, move_up, move_down, reset_waiting,
      Dir.moved, hw, hL, hR, hU, hl, hr, hu, hd, hg, hb] <;> omega

theorem open_gate_none (i : Input) (s : State) (ch : Nat) (hw : s.m_waiting = false)
    (hl : i.left = true → ¬ 0 < s.m_cursor) (hr : i.right = true → ¬ s.m_cursor < 2)
    (hu : i.up = true → ¬ ch < 90) (hd : i.down = true → ¬ 32 < ch)
    (hg : s.m_player.get? s.m_cursor = some ch) :
    ∃ r, death_update i s = some r ∧ r.state.m_cursor = s.m_cursor ∧
      r.state.m_player = s.m_player ∧ r.state.m_waiting = false := by
  cases hL : i.left <;> cases hR : i.right <;> cases hU : i.up <;> cases hD : i.down <;>
    simp [death_update, move_left, move_right, move_up, move_down, reset_waiting,
      hw, hL, hR, hU, hD, hl, hr, hu, hd, hg]

theorem chosen_blocked (i : Input) (s : State) (hw : s.m_waiting = true) :
    chosen i s = none := by
  simp [chosen, hw]

theorem chosen_open (i : Input) (s : State) (ch : Nat) (hw : s.m_waiting = false)
    (hg : s.m_player.get? s.m_cursor = some ch) :
    chosen i s =
      if i.left = true ∧ 0 < s.m_cursor then some Dir.left
      else if i.right = true ∧ s.m_cursor < 2 then some Dir.right
      else if i.up = true ∧ ch < 90 then some Dir.up
      else if i.down = true ∧ 32 < ch then some Dir.down
      else none := by
  simp only [chosen, hw, List.find?, Input.asserts, Dir.canMove, hg]
  cases i.left <;> cases i.right <;> cases i.up <;> cases i.down <;>
    by_cases h1 : 0 < s.m_cursor <;> by_cases h2 : s.m_cursor < 2 <;>
    by_cases h3 : ch < 90 <;> by_cases h4 : 32 < ch <;> simp [h1, h2, h3, h4]

theorem update_chosen (i : Input) (s : State) (hc : s.m_cursor ≤ 2) :
    ∃ r, death_update i s = some r ∧
      match chosen i s with
      | none => r.state.m_cursor = s.m_cursor ∧ r.state.m_player = s.m_player
      | some d => d.moved s r.state ∧ r.state.m_waiting = true := by
  obtain ⟨ch, hg⟩ := player_get_some s.m_player s.m_cursor hc
  cases hw : s.m_waiting
  · rw [chosen_open i s ch hw hg]
    by_cases c1 : i.left = true ∧ 0 < s.m_cursor
    · obtain ⟨r, e, m, w⟩ := open_gate_left i s hw c1.1 c1.2
      exact ⟨r, e, by rw [if_pos c1]; exact ⟨m, w⟩⟩
    · have hl : i.left = true → ¬ 0 < s.m_cursor := fun h h1 => c1 ⟨h, h1⟩
      rw [if_neg c1]
      by_cases c2 : i.right = true ∧ s.m_cursor < 2
      · obtain ⟨r, e, m, w⟩ := open_gate_right i s hw hl c2.1 c2.2
        exact ⟨r, e, by rw [if_pos c2]; exact ⟨m, w⟩⟩
      · have hr : i.right = true → ¬ s.m_cursor < 2 := fun h h1 => c2 ⟨h, h1⟩
        rw [if_neg c2]
        by_cases c3 : i.up = true ∧ ch < 90
        · obtain ⟨r, e, m, w⟩ := open_gate_up i s ch hw hl hr c3.1 hg c3.2
          exact ⟨r, e, by rw [if_pos c3]; exact ⟨m, w⟩⟩
        · have hu : i.up = true → ¬ ch < 90 := fun h h1 => c3 ⟨h, h1⟩
          rw [if_neg c3]
          by_cases c4 : i.down = true ∧ 32 < ch
          · obtain ⟨r, e, m, w⟩ := open_gate_down i s ch hw hl hr hu c4.1 hg c4.2
            exact ⟨r, e, by rw [if_pos c4]; exact ⟨m, w⟩⟩
          · have hd : i.down = true → ¬ 32 < ch := fun h h1 => c4 ⟨h, h1⟩
            rw [if_neg c4]
            obtain ⟨r, e, c, p, -⟩ := open_gate_none i s ch hw hl hr hu hd hg
            exact ⟨r, e, c, p⟩
  · rw [chosen_blocked i s hw]
    by_cases ha : i.released
    · obtain ⟨r, e, c, p, -⟩ := released_update i s ha
      exact ⟨r, e, c, p⟩
    · have : ∃ d, i.asserts d = true := by
        by_contra hn
        push_neg at hn
        apply ha
        have h1 := hn Dir.left
        have h2 := hn Dir.right
        have h3 := hn Dir.up
        have h4 := hn Dir.down
        simp only [Input.asserts, Bool.not_eq_true] at h1 h2 h3 h4
        exact ⟨h1, h2, h3, h4⟩
      obtain ⟨d, hd⟩ := this
      obtain ⟨r, e, c, p, -⟩ := blocked_update i s d hw hd
      exact ⟨r, e, c, p⟩

theorem player_get_set_ne (p : Player) (c k v : Nat) (h : k ≠ c) :
    (p.set c v).get? k = p.get? k := by
  rcases c with _ | _ | _ | c <;> rcases k with _ | _ | _ | k <;>
    simp [Player.set, Player.get?] at h ⊢

theorem player_get_set_eq (p : Player) (c v : Nat) (h : c ≤ 2) :
    (p.set c v).get? c = some v := by
  interval_cases c <;> simp [Player.set, Player.get?]

/-- C15. Up/down edit only the letter at the cursor: on every state with the
cursor in `[0,2]` and for every input, one `death_update` call leaves the
letters at every index other than the pre-update cursor unchanged, and the
letter at the pre-update cursor differs from its old value by at most one. -/
theorem only_letter_at_cursor_changes (i : Input) (s : State) (hc : s.m_cursor ≤ 2) :
    ∃ r, death_update i s = some r ∧
      (∀ k, k ≠ s.m_cursor → r.state.m_player.get? k = s.m_player.get? k) ∧
      ∃ a b, s.m_player.get? s.m_cursor = some a ∧
        r.state.m_player.get? s.m_cursor = some b ∧ b ≤ a + 1 ∧ a ≤ b + 1 := by
  obtain ⟨r, e, m⟩ := update_chosen i s hc
  obtain ⟨a, ha⟩ := player_get_some s.m_player s.m_cursor hc
  refine ⟨r, e, ?_⟩
  have same : r.state.m_player = s.m_player →
      (∀ k, k ≠ s.m_cursor → r.state.m_player.get? k = s.m_player.get? k) ∧
      ∃ a b, s.m_player.get? s.m_cursor = some a ∧
        r.state.m_player.get? s.m_cursor = some b ∧ b ≤ a + 1 ∧ a ≤ b + 1 := by
    intro hp
    rw [hp]
    exact ⟨fun _ _ => rfl, a, a, ha, ha, by omega, by omega⟩
  cases hch : chosen i s with
  | none =>
    rw [hch] at m
    exact same m.2
  | some d =>
    rw [hch] at m
    obtain ⟨m, -⟩ := m
    cases d with
    | left => exact same m.2
    | right => exact same m.2
    | up =>
      obtain ⟨-, ch, hg, hp⟩ := m
      rw [hp]
      refine ⟨fun k hk => player_get_set_ne _ _ _ _ hk, ch, ch + 1, hg,
        player_get_set_eq _ _ _ hc, by omega, by omega⟩
    | down =>
      obtain ⟨-, ch, hg, h0, hp⟩ := m
      rw [hp]
      refine ⟨fun k hk => player_get_set_ne _ _ _ _ hk, ch, ch - 1, hg,
        player_get_set_eq _ _ _ hc, by omega, by omega⟩

/-- Witness of C15: up and left together on the middle letter of `"BXQ"`. -/
theorem only_letter_at_cursor_changes_witness :
    (sample 1500 bxq 1 false).m_cursor ≤ 2 ∧
    ∃ r, death_update diag (sample 1500 bxq 1 false) = some r ∧
      (∀ k, k ≠ (sample 1500 bxq 1 false).m_cursor →
        r.state.m_player.get? k = (sample 1500 bxq 1 false).m_player.get? k) ∧
      ∃ a b, (sample 1500 bxq 1 false).m_player.get? (sample 1500 bxq 1 false).m_cursor = some a ∧
        r.state.m_player.get? (sample 1500 bxq 1 false).m_cursor = some b ∧
        b ≤ a + 1 ∧ a ≤ b + 1 :=
  ⟨by decide, only_letter_at_cursor_changes diag (sample 1500 bxq 1 false) (by decide)⟩

/-- C16. At most one accepted move per frame: on every state with the cursor
in `[0,2]` and for every combination of asserted directions, one
`death_update` call either leaves cursor and letters unchanged (the gate is
blocking, or no asserted direction is within bounds) or makes exactly one
step, that of the first of left, right, up, down that is asserted and
within bounds, and then leaves the gate blocking; whenever the cursor
changes no letter changes, and whenever cursor or letters change the gate
is blocking afterwards. -/
theorem at_most_one_move_per_frame (i : Input) (s : State) (hc : s.m_cursor ≤ 2) :
    ∃ r, death_update i s = some r ∧
      (match chosen i s with
        | none => r.state.m_cursor = s.m_cursor ∧ r.state.m_player = s.m_player
        | some d => d.moved s r.state ∧ r.state.m_waiting = true) ∧
      (r.state.m_cursor ≠ s.m_cursor → r.state.m_player = s.m_player) ∧
      (r.state.m_cursor ≠ s.m_cursor ∨ r.state.m_player ≠ s.m_player →
        r.state.m_waiting = true) := by
  obtain ⟨r, e, m⟩ := update_chosen i s hc
  refine ⟨r, e, m, ?_, ?_⟩
  · intro hne
    cases hch : chosen i s with
    | none => rw [hch] at m; exact m.2
    | some d =>
      rw [hch] at m
      obtain ⟨m, -⟩ := m
      cases d with
      | left => exact m.2
      | right => exact m.2
      | up => exact absurd m.1 hne
      | down => exact absurd m.1 hne
  · intro hne
    cases hch : chosen i s with
    | none =>
      rw [hch] at m
      rcases hne with h | h
      · exact absurd m.1 h
      · exact absurd m.2 h
    | some d => rw [hch] at m; exact m.2

/-- Witness of C16: all four directions asserted at cursor 0 of `"AAA"` with
the gate open: left is out of bounds, so right is the move made. -/
theorem at_most_one_move_per_frame_witness :
    (sample 1500 aaa 0 false).m_cursor ≤ 2 ∧
    chosen all_dirs (sample 1500 aaa 0 false) = some Dir.right ∧
    ∃ r, death_update all_dirs (sample 1500 aaa 0 false) = some r ∧
      r.state.m_cursor = 1 ∧ r.state.m_player = aaa ∧ r.state.m_waiting = true := by
  have hch : chosen all_dirs (sample 1500 aaa 0 false) = some Dir.right := by decide
  obtain ⟨r, e, m, -, -⟩ :=
    at_most_one_move_per_frame all_dirs (sample 1500 aaa 0 false) (by decide)
  rw [hch] at m
  exact ⟨by decide, hch, r, e, m.1.1, m.1.2, m.2⟩

/-! ### The animation counter -/

theorem ticks_succ (n lc : Nat) : ticks (n + 1) lc = flicker_phase (ticks n lc) := by
  induction n generalizing lc with
  | zero => rfl
  | succ n ih =>
    show ticks (n + 1) (flicker_phase lc) = flicker_phase (ticks (n + 1) lc)
    rw [ih (flicker_phase lc)]
    rfl

theorem ticks_closed_form (n : Nat) : ticks n 0 = 25 * (n % 49) := by
  induction n with
  | zero => rfl
  | succ n ih =>
    rw [ticks_succ, ih]
    have hlt : n % 49 < 49 := Nat.mod_lt _ (by decide)
    have hmod : (25 * (n % 49) + 25) % 65536 = 25 * (n % 49) + 25 :=
      Nat.mod_eq_of_lt (by omega)
    unfold flicker_phase
    rw [hmod]
    split_ifs <;> omega

/-- C17. Closed form of the animation phase: from a fresh counter, after the
callback `_death_flicker_timer_update` has run `n` times the counter is
`25 * (n mod 49)`, and on any module state it is the `n`-fold iterate of the
counter step; hence the phase is always a multiple of 25 in `[0, 1200]`, the
16-bit addition never wraps, the 49 phases of ticks 0 to 48 are pairwise
distinct and every later phase is one of them, and 49 is the smallest
positive period. -/
theorem phase_closed_form (n : Nat) (s : State) :
    (phase_after n s = some (25 * (n % 49)) ∧
      (∀ s0 : State, (run (flicker_ticks n) s0).map State.ls_loopcount =
        some (ticks n s0.ls_loopcount)) ∧
      phase_after n s = phase_after (n % 49) s ∧
      (∀ j k, j < 49 → k < 49 → phase_after j s = phase_after k s → j = k) ∧
      (∀ m, phase_after (m + 49) s = phase_after m s) ∧
      (∀ p, 0 < p → (∀ m, phase_after (m + p) s = phase_after m s) → 49 ≤ p)) ∧
    ticks n 0 = 25 * (n % 49) ∧
    (25 ∣ ticks n 0 ∧ ticks n 0 ≤ 1200) ∧
    (ticks n 0 + 25) % 65536 = ticks n 0 + 25 ∧
    ticks n 0 = ticks (n % 49) 0 ∧
    (∀ j k, j < 49 → k < 49 → ticks j 0 = ticks k 0 → j = k) ∧
    (∀ m, ticks (m + 49) 0 = ticks m 0) ∧
    (∀ p, 0 < p → (∀ m, ticks (m + p) 0 = ticks m 0) → 49 ≤ p) := by
  have h := ticks_closed_form n
  have hmod : ticks n 0 = ticks (n % 49) 0 := by
    rw [h, ticks_closed_form (n % 49)]
    omega
  have hinj : ∀ j k, j < 49 → k < 49 → ticks j 0 = ticks k 0 → j = k := by
    intro j k hj hk e
    rw [ticks_closed_form j, ticks_closed_form k] at e
    omega
  have hper : ∀ m, ticks (m + 49) 0 = ticks m 0 := by
    intro m
    rw [ticks_closed_form, ticks_closed_form]
    omega
  have hmin : ∀ p, 0 < p → (∀ m, ticks (m + p) 0 = ticks m 0) → 49 ≤ p := by
    intro p hp hq
    have e := hq 0
    rw [ticks_closed_form, ticks_closed_form] at e
    omega
  refine ⟨⟨?_, fun s0 => run_flicker_ticks n s0, ?_, ?_, ?_, ?_⟩,
    h, ⟨⟨n % 49, h⟩, by omega⟩, by omega, hmod, hinj, hper, hmin⟩
  · rw [phase_after_eq, h]
  · rw [phase_after_eq, phase_after_eq, hmod]
  · intro j k hj hk e
    rw [phase_after_eq, phase_after_eq, Option.some.injEq] at e
    exact hinj j k hj hk e
  · intro m
    rw [phase_after_eq, phase_after_eq, hper m]
  · intro p hp hq
    refine hmin p hp (fun m => ?_)
    have e := hq m
    rw [phase_after_eq, phase_after_eq, Option.some.injEq] at e
    exact e

/-- C18. Colour and row ranges: for every counter value (so for every 16-bit
phase, and for every phase reached by ticking from 0) the channels the
callback computes satisfy `R ≤ 254`, `G ≤ 255`, `1 ≤ B ≤ 255` and
`R + B = 255`, the 8-bit stores keep them as computed, the row is at most
119, and these are the colour and row every tick publishes. -/
theorem colour_and_row_in_range (lc : Nat) (s : State) :
    ((flicker_colour lc).r = lc % 255 ∧ (flicker_colour lc).g = (lc % 512) / 2 ∧
      (flicker_colour lc).b = 255 - lc % 255 ∧ (flicker_colour lc).a = 255) ∧
    ((flicker_colour lc).r ≤ 254 ∧ (flicker_colour lc).g ≤ 255 ∧
      1 ≤ (flicker_colour lc).b ∧ (flicker_colour lc).b ≤ 255 ∧
      (flicker_colour lc).r + (flicker_colour lc).b = 255) ∧
    (flicker_row lc = (lc / 10) % 120 ∧ flicker_row lc ≤ 119) ∧
    ((_death_flicker_timer_update s).m_text_colour =
        flicker_colour (_death_flicker_timer_update s).ls_loopcount ∧
      (_death_flicker_timer_update s).m_gradient_row =
        flicker_row (_death_flicker_timer_update s).ls_loopcount) := by
  refine ⟨?_, ?_, ?_, ⟨rfl, rfl⟩⟩
  · simp only [flicker_colour, Pen.rgba]
    refine ⟨?_, ?_, ?_, ?_⟩ <;> first | trivial | omega
  · simp only [flicker_colour, Pen.rgba]
    refine ⟨?_, ?_, ?_, ?_, ?_⟩ <;> omega
  · simp only [flicker_row]
    omega

/-! ### Entering a name tap by tap -/

theorem run_append (a b : List Event) (s s1 : State) (h : run a s = some s1) :
    run (a ++ b) s = run b s1 := by
  induction a generalizing s with
  | nil => cases h; rfl
  | cons e es ih =>
    simp only [run, List.cons_append] at h ⊢
    split at h
    · cases h
    · rename_i s2 e2
      exact ih s2 h

theorem frames_append (a b : List Input) : frames (a ++ b) = frames a ++ frames b := by
  simp [frames]

theorem frame_only (d : Dir) : d.frame.only d := by
  cases d <;> decide

theorem inBounds_of_shows (d : Dir) (s s1 : State) (hc : s1.m_cursor = s.m_cursor)
    (hp : s1.m_player = s.m_player) (h : d.inBounds s) : d.inBounds s1 := by
  cases d <;> simp only [Dir.inBounds, hc, hp] at h ⊢ <;> exact h

theorem moved_of_shows (d : Dir) (s s1 s2 : State) (hc : s1.m_cursor = s.m_cursor)
    (hp : s1.m_player = s.m_player) (h : d.moved s1 s2) : d.moved s s2 := by
  cases d <;> simp only [Dir.moved, hc, hp] at h ⊢ <;> exact h

theorem press_moves (d : Dir) (s : State) (h : d.inBounds s) :
    ∃ s1, run (frames (press d)) s = some s1 ∧ d.moved s s1 := by
  obtain ⟨r0, e0, c0, p0, w0⟩ := released_update idle s (by decide)
  obtain ⟨r1, e1, m1, -⟩ := accepted_update d.frame r0.state d w0 (frame_only d)
    (inBounds_of_shows d s r0.state c0 p0 h)
  refine ⟨r1.state, ?_, moved_of_shows d s r0.state r1.state c0 p0 m1⟩
  simp [frames, press, run, Event.apply, e0, e1]

theorem player_get_le (p : Player) (c ch : Nat) (h : p.get? c = some ch) : c ≤ 2 := by
  rcases c with _ | _ | _ | c
  · omega
  · omega
  · omega
  · simp [Player.get?] at h

theorem player_set_get (p : Player) (c ch : Nat) (h : p.get? c = some ch) :
    p.set c ch = p := by
  rcases c with _ | _ | _ | c <;> simp [Player.get?] at h <;> subst h <;> rfl

theorem player_set_set (p : Player) (c a b : Nat) : (p.set c a).set c b = p.set c b := by
  rcases c with _ | _ | _ | c <;> rfl

theorem presses_up (n : Nat) (s : State) (c ch : Nat) (p : Player) (hs : s.shows c p)
    (hg : p.get? c = some ch) (hb : ch + n ≤ 90) :
    ∃ s1, run (frames (presses Dir.up n)) s = some s1 ∧ s1.shows c (p.set c (ch + n)) := by
  induction n generalizing s p ch with
  | zero => exact ⟨s, rfl, hs.1, by rw [Nat.add_zero, player_set_get p c ch hg]; exact hs.2⟩
  | succ n ih =>
    obtain ⟨hc, hp⟩ := hs
    obtain ⟨s1, e1, m1, ch1, g1, p1⟩ := press_moves Dir.up s
      ⟨ch, by rw [hc, hp]; exact hg, by omega⟩
    rw [hc, hp] at g1 p1
    rw [hg] at g1
    cases g1
    obtain ⟨s2, e2, h2⟩ := ih s1 (ch + 1) (p.set c (ch + 1)) ⟨by rw [m1, hc], p1⟩
      (player_get_set_eq p c _ (player_get_le p c ch hg)) (by omega)
    refine ⟨s2, ?_, ?_⟩
    · show run (frames (press Dir.up ++ presses Dir.up n)) s = some s2
      rw [frames_append, run_append _ _ s s1 e1, e2]
    · rw [player_set_set] at h2
      rw [show ch + (n + 1) = ch + 1 + n by omega]
      exact h2

theorem presses_down (n : Nat) (s : State) (c ch : Nat) (p : Player) (hs : s.shows c p)
    (hg : p.get? c = some ch) (hb : 32 + n ≤ ch) :
    ∃ s1, run (frames (presses Dir.down n)) s = some s1 ∧ s1.shows c (p.set c (ch - n)) := by
  induction n generalizing s p ch with
  | zero => exact ⟨s, rfl, hs.1, by rw [Nat.sub_zero, player_set_get p c ch hg]; exact hs.2⟩
  | succ n ih =>
    obtain ⟨hc, hp⟩ := hs
    obtain ⟨s1, e1, m1, ch1, g1, -, p1⟩ := press_moves Dir.down s
      ⟨ch, by rw [hc, hp]; exact hg, by omega⟩
    rw [hc, hp] at g1 p1
    rw [hg] at g1
    cases g1
    obtain ⟨s2, e2, h2⟩ := ih s1 (ch - 1) (p.set c (ch - 1)) ⟨by rw [m1, hc], p1⟩
      (player_get_set_eq p c _ (player_get_le p c ch hg)) (by omega)
    refine ⟨s2, ?_, ?_⟩
    · show run (frames (press Dir.down ++ presses Dir.down n)) s = some s2
      rw [frames_append, run_append _ _ s s1 e1, e2]
    · rw [player_set_set] at h2
      rw [show ch - (n + 1) = ch - 1 - n by omega]
      exact h2

theorem presses_left (n : Nat) (s : State) (c : Nat) (p : Player) (hs : s.shows c p)
    (hb : n ≤ c) :
    ∃ s1, run (frames (presses Dir.left n)) s = some s1 ∧ s1.shows (c - n) p := by
  induction n generalizing s c with
  | zero => exact ⟨s, rfl, hs⟩
  | succ n ih =>
    obtain ⟨hc, hp⟩ := hs
    obtain ⟨s1, e1, m1, p1⟩ := press_moves Dir.left s (show 0 < s.m_cursor by omega)
    obtain ⟨s2, e2, h2⟩ := ih s1 (c - 1) ⟨by omega, by rw [p1, hp]⟩ (by omega)
    refine ⟨s2, ?_, ?_⟩
    · show run (frames (press Dir.left ++ presses Dir.left n)) s = some s2
      rw [frames_append, run_append _ _ s s1 e1, e2]
    · rw [show c - (n + 1) = c - 1 - n by omega]
      exact h2

theorem press_right (s : State) (c : Nat) (p : Player) (hs : s.shows c p) (hb : c < 2) :
    ∃ s1, run (frames (press Dir.right)) s = some s1 ∧ s1.shows (c + 1) p := by
  obtain ⟨hc, hp⟩ := hs
  obtain ⟨s1, e1, m1, p1⟩ := press_moves Dir.right s (show s.m_cursor < 2 by omega)
  exact ⟨s1, e1, by omega, by rw [p1, hp]⟩

theorem spell_sets (v : Nat) (s : State) (c : Nat) (p : Player) (hs : s.shows c p)
    (hg : p.get? c = some 65) (hv : 32 ≤ v ∧ v ≤ 90) :
    ∃ s1, run (frames (spell v)) s = some s1 ∧ s1.shows c (p.set c v) := by
  unfold spell
  split_ifs with h
  · obtain ⟨s1, e1, h1⟩ := presses_up (v - 65) s c 65 p hs hg (by omega)
    rw [show 65 + (v - 65) = v by omega] at h1
    exact ⟨s1, e1, h1⟩
  · obtain ⟨s1, e1, h1⟩ := presses_down (65 - v) s c 65 p hs hg (by omega)
    rw [show 65 - (65 - v) = v by omega] at h1
    exact ⟨s1, e1, h1⟩

theorem entry_runs (target : Player) (c : Nat) (s : State) (hs : s.shows 0 aaa)
    (ht : target.inRange) (hc : c ≤ 2) :
    ∃ s1, run (frames (entry target c)) s = some s1 ∧ s1.shows c target := by
  obtain ⟨t0, t1, t2⟩ := ht
  obtain ⟨s1, e1, h1⟩ := spell_sets target.c0 s 0 aaa hs rfl t0
  obtain ⟨s2, e2, h2⟩ := press_right s1 0 _ h1 (by omega)
  obtain ⟨s3, e3, h3⟩ := spell_sets target.c1 s2 1 _ h2 rfl t1
  obtain ⟨s4, e4, h4⟩ := press_right s3 1 _ h3 (by omega)
  obtain ⟨s5, e5, h5⟩ := spell_sets target.c2 s4 2 _ h4 rfl t2
  obtain ⟨s6, e6, h6⟩ := presses_left (2 - c) s5 2 _ h5 (by omega)
  refine ⟨s6, ?_, ?_⟩
  · unfold entry
    rw [frames_append, run_append _ _ s s1 e1, frames_append, run_append _ _ s1 s2 e2,
      frames_append, run_append _ _ s2 s3 e3, frames_append, run_append _ _ s3 s4 e4,
      frames_append, run_append _ _ s4 s5 e5, e6]
  · rw [show 2 - (2 - c) = c by omega] at h6
    exact h6

theorem frame_no_confirm (d : Dir) : d.frame.button_b = false := by
  cases d <;> rfl

theorem presses_no_confirm (d : Dir) (n : Nat) (i : Input) (h : i ∈ presses d n) :
    i.button_b = false := by
  induction n with
  | zero => cases h
  | succ n ih =>
    simp only [presses, press, List.cons_append, List.nil_append, List.mem_cons] at h
    rcases h with h | h | h
    · rw [h]; rfl
    · rw [h]; exact frame_no_confirm d
    · exact ih h

theorem spell_no_confirm (v : Nat) (i : Input) (h : i ∈ spell v) : i.button_b = false := by
  unfold spell at h
  split_ifs at h
  · exact presses_no_confirm _ _ i h
  · exact presses_no_confirm _ _ i h

theorem entry_no_confirm (target : Player) (c : Nat) (i : Input) (h : i ∈ entry target c) :
    i.button_b = false := by
  simp only [entry, List.mem_append] at h
  rcases h with h | h | h | h | h | h
  · exact spell_no_confirm _ i h
  · exact presses_no_confirm Dir.right 1 i (by simpa [presses] using h)
  · exact spell_no_confirm _ i h
  · exact presses_no_confirm Dir.right 1 i (by simpa [presses] using h)
  · exact spell_no_confirm _ i h
  · exact presses_no_confirm _ _ i h

theorem death_check_score_shows (t sc : Nat) (s : State)
    (h : (death_check_score t sc s).1 = true) : (death_check_score t sc s).2.shows 0 aaa := by
  by_cases hlt : t < sc
  · simp [death_check_score, hlt, State.shows, aaa]
  · simp [death_check_score, hlt] at h

/-- C19. Every entry is reachable: for every target triple of letters, each in
`[' ', 'Z']`, and every target cursor in `[0,2]`, there is a finite sequence
of per-frame inputs, none with confirm pressed, such that the `death_update`
calls for those frames, with no timer expiry in between, run from the
session an accepted `death_check_score` leaves to a state with exactly those
letters and that cursor. -/
theorem every_entry_is_reachable (t sc : Nat) (s0 : State) (target : Player) (c : Nat)
    (h : (death_check_score t sc s0).1 = true) (ht : target.inRange) (hc : c ≤ 2) :
    ∃ ins : List Input, (∀ i ∈ ins, i.button_b = false) ∧
      ∃ s1, run (ins.map Event.update) (death_check_score t sc s0).2 = some s1 ∧
        s1.m_player = target ∧ s1.m_cursor = c := by
  obtain ⟨s1, e1, h1, h2⟩ :=
    entry_runs target c _ (death_check_score_shows t sc s0 h) ht hc
  exact ⟨entry target c, entry_no_confirm target c, s1, e1, h2, h1⟩

/-- Witness of C19: the name `"BXQ"` with the cursor parked in the middle,
entered on a stale module state whose gate is still blocking. -/
theorem every_entry_is_reachable_witness :
    (death_check_score 1000 1500 stale).1 = true ∧ bxq.inRange ∧ 1 ≤ 2 ∧
    ∃ ins : List Input, (∀ i ∈ ins, i.button_b = false) ∧
      ∃ s1, run (ins.map Event.update) (death_check_score 1000 1500 stale).2 = some s1 ∧
        s1.m_player = bxq ∧ s1.m_cursor = 1 :=
  ⟨by decide, by decide, by decide,
    every_entry_is_reachable 1000 1500 stale bxq 1 (by decide) (by decide) (by decide)⟩

end Death
